import Mathlib

/-! Selenoid S3 uploader: key resolution and upload-then-cleanup.

A shallow embedding of `upload/s3.go` (functions `GetS3Key`, `S3Uploader.Init`,
`S3Uploader.Upload`) together with the pieces of the Go standard library they call
(`strings.Replace`, `strings.ToLower`, `filepath.Base`, `filepath.Ext`, `os.Open`,
`os.Remove`, `fmt.Errorf`).

Go strings are modelled as lists of Unicode code points (`List Char`), i.e. as valid
UTF-8 text.  Substring search on valid UTF-8 agrees with search on code points, so
`strings.Replace` is modelled on code points.
-/

namespace S3

/-- A Go string, as the sequence of its code points. -/
abbrev GoString := List Char

/-! ## Standard-library functions used by `GetS3Key` -/

/-- The ASCII branch of Go's `unicode.ToLower`: `'A'..'Z'` are shifted to `'a'..'z'`. -/
def asciiToLower (c : Char) : Char :=
  if 'A' ≤ c ∧ c ≤ 'Z' then Char.ofNat (c.toNat + 32) else c

/-- Go's `unicode.ToLower`.  Code points up to `MaxASCII` are handled by the ASCII branch;
the case table for the other code points belongs to Go's `unicode` package and is taken as
the argument `tbl`. -/
def unicodeToLower (tbl : Char → Char) (c : Char) : Char :=
  if c.toNat ≤ 127 then asciiToLower c else tbl c

/-- Go's `strings.ToLower`: every code point is mapped through `unicode.ToLower`. -/
def ToLower (tbl : Char → Char) (s : GoString) : GoString :=
  s.map (unicodeToLower tbl)

/-- The scanning loop of `strings.Replace(s, old, new, -1)` for a non-empty `old`: matches are
found from left to right and do not overlap.  The counter is the number of code points of the
current match that are still to be skipped. -/
def replaceAux (old new : GoString) : Nat → GoString → GoString
  | _, [] => []
  | skip + 1, _ :: t => replaceAux old new skip t
  | 0, c :: t =>
    if old.isPrefixOf (c :: t) then new ++ replaceAux old new (old.length - 1) t
    else c :: replaceAux old new 0 t

/-- Go's `strings.Replace(s, old, new, -1)`.  An empty `old` matches at the beginning of the
string and after every code point. -/
def Replace (s old new : GoString) : GoString :=
  if old = [] then new ++ s.flatMap (fun c => c :: new)
  else replaceAux old new 0 s

/-- Unix `os.IsPathSeparator`. -/
def IsPathSeparator (c : Char) : Bool := c == '/'

/-- The first loop of `filepath.Base`: strip trailing separators.  The argument is the path
reversed, so the loop removes leading separators of the reversed path. -/
def stripTrailingSlashesRev : GoString → GoString
  | [] => []
  | c :: t => if IsPathSeparator c then stripTrailingSlashesRev t else c :: t

/-- Go's `filepath.Base` on Unix (where the volume name is always empty). -/
def Base (path : GoString) : GoString :=
  if path = [] then ['.']
  else
    let stripped := stripTrailingSlashesRev path.reverse
    -- the last element: everything after the last separator
    let last := (stripped.takeWhile (fun c => !IsPathSeparator c)).reverse
    if last = [] then ['/'] else last

/-- The loop of `filepath.Ext`, run over the reversed path: `acc` holds the code points already
scanned (in path order).  Stops at the first separator or at the first dot. -/
def extLoop : GoString → GoString → GoString
  | [], _ => []
  | c :: t, acc =>
    if IsPathSeparator c then []
    else if c = '.' then c :: acc
    else extLoop t (c :: acc)

/-- Go's `filepath.Ext`: the suffix beginning at the final dot in the final element of the
path; empty if there is no dot. -/
def Ext (path : GoString) : GoString :=
  extLoop path.reverse []

/-! ## Request data -/

/-- Modelled from the spec: the browser capabilities of a session (`Session.Caps`), of which
the key resolver reads the name, the version and the platform. -/
structure Caps where
  Name : GoString
  Version : GoString
  Platform : GoString
deriving DecidableEq

/-- Modelled from the spec: session metadata, used only for key templating. -/
structure Session where
  Caps : Caps
  Quota : GoString
deriving DecidableEq

/-- Modelled from the spec: the `UploadRequest` value handed to `Upload`.  The Go field `Type`
is spelled `Type_` here. -/
structure UploadRequest where
  Filename : GoString
  SessionId : GoString
  Session : Session
  Type_ : GoString
deriving DecidableEq

/-! ## `GetS3Key` -/

/-- The function `GetS3Key` of `upload/s3.go`. -/
def GetS3Key (tbl : Char → Char) (keyPattern : GoString) (input : UploadRequest) : GoString :=
  let sess := input.Session
  let filename := input.Filename
  let key := Replace keyPattern "$fileName".toList (ToLower tbl (Base filename))
  let key := Replace key "$fileExtension".toList (ToLower tbl (Ext filename))
  let key := Replace key "$browserName".toList (ToLower tbl sess.Caps.Name)
  let key := Replace key "$browserVersion".toList (ToLower tbl sess.Caps.Version)
  let key := Replace key "$platformName".toList (ToLower tbl sess.Caps.Platform)
  let key := Replace key "$quota".toList (ToLower tbl sess.Quota)
  let key := Replace key "$sessionId".toList (ToLower tbl input.SessionId)
  let key := Replace key "$fileType".toList (ToLower tbl input.Type_)
  let key := Replace key " ".toList "-".toList
  key

/-- The eight recognised placeholders, in the order in which `GetS3Key` substitutes them. -/
def placeholders : List GoString :=
  ["$fileName".toList, "$fileExtension".toList, "$browserName".toList,
   "$browserVersion".toList, "$platformName".toList, "$quota".toList,
   "$sessionId".toList, "$fileType".toList]

/-- Replacement of a space by a hyphen, one code point at a time. -/
def spaceToHyphen (c : Char) : Char := if c = ' ' then '-' else c

/-- A string with every space replaced by a hyphen. -/
def hyphenate (s : GoString) : GoString := s.map spaceToHyphen

/-- None of the strings `ps` occurs in `v` as a substring. -/
def NoneOccurs (ps : List GoString) (v : GoString) : Prop :=
  ∀ p ∈ ps, ¬ p <:+: v

instance (ps : List GoString) (v : GoString) : Decidable (NoneOccurs ps v) := by
  unfold NoneOccurs
  infer_instance

/-- A placeholder-looking token: a dollar sign followed by letters. -/
def IsToken (tok : GoString) : Prop :=
  ∃ tl : GoString, tok = '$' :: tl ∧ ∀ c ∈ tl, c.isAlpha = true

/-- The token `tok` occurs in `s` at the end of `s` or directly before a code point that is
neither a letter nor a dollar sign. -/
def FollowedBySeparator (tok s : GoString) : Prop :=
  ∃ pre post : GoString, s = pre ++ tok ++ post ∧
    ∀ c ∈ post.head?, c.isAlpha = false ∧ c ≠ '$'

/-! ## Environment of `Upload`: errors, local files, backend -/

/-- A Go `error` value: `none` is `nil`, `some msg` an error whose text is `msg`. -/
abbrev GoError := Option GoString

/-- The verb `%v` of `fmt` applied to an `error` value; a nil error prints as `<nil>`. -/
def formatV : GoError → GoString
  | none => "<nil>".toList
  | some msg => msg

/-- A local file: its bytes, whether it may be opened for reading and whether its directory
entry may be removed. -/
structure FileInfo where
  data : List Nat
  readable : Bool
  removable : Bool
deriving DecidableEq

/-- An open file handle (`*os.File`). -/
structure OsFile where
  name : GoString
  data : List Nat
deriving DecidableEq

/-- The `s3manager.UploadInput` fields that `Upload` fills in. -/
structure UploadInput where
  Bucket : GoString
  Key : GoString
  Body : Option OsFile
  StorageClass : Option GoString
deriving DecidableEq

/-- The backend handle `*s3manager.Uploader`: its `Upload` method either succeeds (`none`) or
fails with an error. -/
structure S3Manager where
  Upload : UploadInput → GoError

/-- Effects observable outside the process. -/
inductive Event where
  | open (name : GoString)
  | close (name : GoString)
  | put (input : UploadInput)
  | remove (name : GoString)
deriving DecidableEq

/-- The local file system together with the log of effects performed so far. -/
structure World where
  fs : GoString → Option FileInfo
  trace : List Event

/-- Go's `os.Open`: fails if the file does not exist or is not readable. -/
def osOpen (w : World) (name : GoString) : Option OsFile × GoError × World :=
  let w1 : World := { w with trace := w.trace ++ [Event.open name] }
  match w.fs name with
  | none => (none, some ("open ".toList ++ name ++ ": no such file or directory".toList), w1)
  | some f =>
    if f.readable then (some { name := name, data := f.data }, none, w1)
    else (none, some ("open ".toList ++ name ++ ": permission denied".toList), w1)

/-- The method `(*os.File).Close`; on a nil handle it returns an error without any effect. -/
def fileClose (w : World) : Option OsFile → World
  | none => w
  | some f => { w with trace := w.trace ++ [Event.close f.name] }

/-- Go's `os.Remove`: on success the name no longer exists. -/
def osRemove (w : World) (name : GoString) : GoError × World :=
  let w1 : World := { w with trace := w.trace ++ [Event.remove name] }
  match w.fs name with
  | none => (some ("remove ".toList ++ name ++ ": no such file or directory".toList), w1)
  | some f =>
    if f.removable then
      (none, { fs := fun p => if p = name then none else w.fs p, trace := w1.trace })
    else (some ("remove ".toList ++ name ++ ": operation not permitted".toList), w1)

/-- The call `s3.manager.Upload(uploadInput)`. -/
def managerUpload (m : S3Manager) (w : World) (uploadInput : UploadInput) : GoError × World :=
  (m.Upload uploadInput, { w with trace := w.trace ++ [Event.put uploadInput] })

/-! ## The uploader -/

/-- The struct `S3Uploader`; `manager = none` is the nil pointer. -/
structure S3Uploader where
  Endpoint : GoString
  Region : GoString
  AccessKey : GoString
  SecretKey : GoString
  BucketName : GoString
  KeyPattern : GoString
  ReducedRedundancy : Bool
  KeepFiles : Bool
  manager : Option S3Manager

/-- The package function `init`: a zero `S3Uploader` whose configuration fields are bound to the
command-line flags (given here by their parsed values); the manager is nil. -/
def init (endpoint region accessKey secretKey bucketName keyPattern : GoString)
    (reducedRedundancy keepFiles : Bool) : S3Uploader :=
  { Endpoint := endpoint, Region := region, AccessKey := accessKey, SecretKey := secretKey,
    BucketName := bucketName, KeyPattern := keyPattern,
    ReducedRedundancy := reducedRedundancy, KeepFiles := keepFiles, manager := none }

/-- The fields of `aws.Config` set by `Init`. -/
structure AwsConfig where
  Endpoint : GoString
  Region : GoString
  Credentials : Option (GoString × GoString)
deriving DecidableEq

/-- The method `S3Uploader.Init`.  `newSession` stands for `awssession.NewSession` and
`newUploader` for `s3manager.NewUploader`, composed.  The result `none` means that
`log.Fatalf` terminated the process. -/
def Init (newSession : AwsConfig → Except GoString S3Manager) (s3 : S3Uploader) :
    Option S3Uploader :=
  if s3.Endpoint ≠ [] then
    let config : AwsConfig := { Endpoint := s3.Endpoint, Region := s3.Region, Credentials := none }
    let config : AwsConfig :=
      if s3.AccessKey ≠ [] ∧ s3.SecretKey ≠ [] then
        { config with Credentials := some (s3.AccessKey, s3.SecretKey) }
      else config
    match newSession config with
    | .error _ => none
    | .ok m => some { s3 with manager := some m }
  else some s3

/-- Lines 72 to 79 of `Upload`: the upload input, with the storage class set on request. -/
def mkUploadInput (s3 : S3Uploader) (key : GoString) (file : Option OsFile) : UploadInput :=
  let uploadInput : UploadInput :=
    { Bucket := s3.BucketName, Key := key, Body := file, StorageClass := none }
  if s3.ReducedRedundancy then
    { uploadInput with StorageClass := some "REDUCED_REDUNDANCY".toList }
  else uploadInput

/-- The method `S3Uploader.Upload`.  Returns the error value and the world after the call; the
deferred `file.Close()` runs on every exit path after `os.Open`. -/
def Upload (tbl : Char → Char) (s3 : S3Uploader) (input : UploadRequest) (w : World) :
    GoError × World :=
  match s3.manager with
  | some manager =>
    let filename := input.Filename
    let key := GetS3Key tbl s3.KeyPattern input
    match osOpen w filename with
    | (file, err, w) =>
      if err ≠ none then
        (some ("failed to open file ".toList ++ filename ++ ": ".toList ++ formatV err),
          fileClose w file)
      else
        let uploadInput := mkUploadInput s3 key file
        match managerUpload manager w uploadInput with
        | (err, w) =>
          if err ≠ none then
            (some ("failed to S3 upload ".toList ++ filename ++ " as ".toList ++ key ++
              ": ".toList ++ formatV err), fileClose w file)
          else if s3.KeepFiles then (none, fileClose w file)
          else
            -- `os.Remove` runs only when `KeepFiles` is false; its error value is only
            -- compared with nil, the message is formatted with the variable `err`
            match osRemove w filename with
            | (removeErr, w) =>
              if removeErr ≠ none then
                (some ("failed to remove uploaded file ".toList ++ filename ++ ": ".toList ++
                  formatV err), fileClose w file)
              else (none, fileClose w file)
  | none => (some "S3 uploader is not initialized".toList, w)

/-! ## Concrete data used to evaluate the definitions -/

/-- A request whose browser name is the text `$quota`. -/
def quotaNamedRequest : UploadRequest :=
  { Filename := "/tmp/clip.webm".toList, SessionId := "abc123".toList,
    Session := { Caps := { Name := "$quota".toList, Version := "91".toList,
                           Platform := "linux".toList },
                 Quota := "q".toList },
    Type_ := "video".toList }

/-- A request whose file is named `ta` and whose quota is `q`. -/
def taRequest : UploadRequest :=
  { Filename := "ta".toList, SessionId := "abc123".toList,
    Session := { Caps := { Name := "Chrome".toList, Version := "91".toList,
                           Platform := "linux".toList },
                 Quota := "q".toList },
    Type_ := "video".toList }

/-- A request with spaces and capitals in its metadata. -/
def sampleRequest : UploadRequest :=
  { Filename := "/tmp/My Clip.WebM".toList, SessionId := "ABC 123".toList,
    Session := { Caps := { Name := "Chrome".toList, Version := "91.0".toList,
                           Platform := "Linux x64".toList },
                 Quota := "Team A".toList },
    Type_ := "Video".toList }

/-- A backend whose transfers all succeed. -/
def okManager : S3Manager := { Upload := fun _ => none }

/-- A backend whose transfers all fail. -/
def failingManager : S3Manager := { Upload := fun _ => some "RequestTimeout".toList }

/-- An initialised uploader that removes uploaded files (`KeepFiles` is false). -/
def readyUploader : S3Uploader :=
  { init "http://s3.local".toList "us-east-1".toList [] [] "videos".toList
      "$sessionId/$fileName".toList false false with manager := some okManager }

/-- An initialised uploader that keeps uploaded files. -/
def keepingUploader : S3Uploader :=
  { readyUploader with KeepFiles := true }

/-- An initialised uploader whose backend rejects every transfer. -/
def rejectedUploader : S3Uploader :=
  { readyUploader with manager := some failingManager }

/-- The request for the recording `/tmp/clip.webm` of session `abc123`. -/
def clipRequest : UploadRequest :=
  { Filename := "/tmp/clip.webm".toList, SessionId := "abc123".toList,
    Session := { Caps := { Name := "Chrome".toList, Version := "91".toList,
                           Platform := "linux".toList },
                 Quota := "default".toList },
    Type_ := "video".toList }

/-- A file system holding `/tmp/clip.webm`, readable, in a directory that forbids removal. -/
def lockedFs : GoString → Option FileInfo :=
  fun p => if p = "/tmp/clip.webm".toList then
    some { data := [26, 69, 223, 163], readable := true, removable := false } else none

/-- A file system holding `/tmp/clip.webm`, readable and removable. -/
def plainFs : GoString → Option FileInfo :=
  fun p => if p = "/tmp/clip.webm".toList then
    some { data := [26, 69, 223, 163], readable := true, removable := true } else none

/-- A file system without any file. -/
def emptyFs : GoString → Option FileInfo := fun _ => none

/-! ## Facts about `Replace` -/

theorem replaceAux_nil (old new : GoString) (k : Nat) : replaceAux old new k [] = [] := by
  cases k <;> rfl

theorem replaceAux_skip (old new : GoString) :
    ∀ (s : GoString) (k : Nat), s.length ≤ k → replaceAux old new k s = []
  | [], k, _ => replaceAux_nil old new k
  | _ :: t, 0, h => by simp at h
  | _ :: t, k + 1, h => by
    have ht : t.length ≤ k := by simpa using h
    simpa [replaceAux] using replaceAux_skip old new t k ht

theorem isPrefixOf_false_of_absent {old s : GoString} (h : ¬ old <:+: s) :
    old.isPrefixOf s = false := by
  cases hb : old.isPrefixOf s with
  | false => rfl
  | true => exact absurd (List.isPrefixOf_iff_prefix.1 hb).isInfix h

theorem replaceAux_of_absent (old new : GoString) :
    ∀ s : GoString, ¬ old <:+: s → replaceAux old new 0 s = s
  | [], _ => rfl
  | c :: t, h => by
    have ht : ¬ old <:+: t := fun hi => h (List.infix_cons hi)
    simp [replaceAux, isPrefixOf_false_of_absent h, replaceAux_of_absent old new t ht]

/-- Replacing a string that does not occur changes nothing. -/
theorem Replace_of_absent (s old new : GoString) (h : ¬ old <:+: s) :
    Replace s old new = s := by
  have hne : old ≠ [] := by
    rintro rfl
    exact h List.nil_infix
  simp [Replace, hne, replaceAux_of_absent old new s h]

/-- A pattern that is exactly the replaced string becomes the replacement. -/
theorem Replace_self (old new : GoString) (hne : old ≠ []) : Replace old old new = new := by
  cases old with
  | nil => exact absurd rfl hne
  | cons c t =>
    have hp : (c :: t).isPrefixOf (c :: t) = true :=
      List.isPrefixOf_iff_prefix.2 (List.prefix_refl _)
    have hskip := replaceAux_skip (c :: t) new t t.length (Nat.le_refl _)
    simp only [List.length_cons] at hskip
    simp [Replace, replaceAux, hp, hskip]

theorem replaceAux_space :
    ∀ s : GoString, replaceAux [' '] ['-'] 0 s = hyphenate s
  | [] => rfl
  | c :: t => by
    by_cases hc : c = ' '
    · subst hc
      have ih := replaceAux_space t
      simp only [hyphenate] at ih
      simp [replaceAux, hyphenate, spaceToHyphen, ih]
    · have hc2 : ¬ ' ' = c := fun h => hc h.symm
      have ih := replaceAux_space t
      simp only [hyphenate] at ih
      simp [replaceAux, hyphenate, spaceToHyphen, hc, hc2, ih]

/-- The last step of `GetS3Key` replaces each space by a hyphen. -/
theorem Replace_space (s : GoString) : Replace s " ".toList "-".toList = hyphenate s := by
  have h := replaceAux_space s
  simpa [Replace] using h

theorem space_not_mem_hyphenate (s : GoString) : ' ' ∉ hyphenate s := by
  intro h
  obtain ⟨c, -, hc⟩ := List.mem_map.1 h
  unfold spaceToHyphen at hc
  split at hc
  · exact absurd hc (by decide)
  · rename_i hne
    exact hne hc

theorem replaceAux_no_dollar (pl new rest : GoString) :
    ∀ tl : GoString, '$' ∉ tl →
      replaceAux ('$' :: pl) new 0 (tl ++ rest) = tl ++ replaceAux ('$' :: pl) new 0 rest
  | [], _ => rfl
  | c :: t, h => by
    have hc : ¬ '$' = c := fun e => h (e ▸ List.mem_cons_self _ _)
    have ht : '$' ∉ t := fun e => h (List.mem_cons_of_mem _ e)
    simp [replaceAux, hc, replaceAux_no_dollar pl new rest t ht]

theorem replaceAux_reach (pl new rest : GoString) (hpl : '$' ∉ pl) :
    ∀ (pre : GoString) (k : Nat), k ≤ pre.length →
      ∃ pre', replaceAux ('$' :: pl) new k (pre ++ '$' :: rest)
        = pre' ++ replaceAux ('$' :: pl) new 0 ('$' :: rest)
  | [], k, h => by
    have hk : k = 0 := by simpa using h
    subst hk
    exact ⟨[], rfl⟩
  | c :: pre, k + 1, h => by
    obtain ⟨pre', hp⟩ := replaceAux_reach pl new rest hpl pre k (by simpa using h)
    exact ⟨pre', by simpa [replaceAux] using hp⟩
  | c :: pre, 0, _ => by
    cases hb : ('$' :: pl).isPrefixOf (c :: (pre ++ '$' :: rest)) with
    | true =>
      have hpre : ('$' :: pl) <+: c :: (pre ++ '$' :: rest) := List.isPrefixOf_iff_prefix.1 hb
      have hpl2 : pl <+: pre ++ '$' :: rest := (List.cons_prefix_cons.1 hpre).2
      have hlen : pl.length ≤ pre.length := by
        by_contra hlt
        push_neg at hlt
        have h1 : pre ++ ['$'] <+: pre ++ '$' :: rest := ⟨rest, by simp⟩
        have h2 : pre ++ ['$'] <+: pl :=
          List.prefix_of_prefix_length_le h1 hpl2 (by simp; omega)
        exact hpl (h2.subset (by simp))
      obtain ⟨pre', hp⟩ := replaceAux_reach pl new rest hpl pre pl.length hlen
      refine ⟨new ++ pre', ?_⟩
      have hcons : replaceAux ('$' :: pl) new 0 (c :: (pre ++ '$' :: rest))
          = new ++ replaceAux ('$' :: pl) new pl.length (pre ++ '$' :: rest) := by
        simp [replaceAux, hb]
      simpa [hp] using hcons
    | false =>
      obtain ⟨pre', hp⟩ := replaceAux_reach pl new rest hpl pre 0 (Nat.zero_le _)
      refine ⟨c :: pre', ?_⟩
      have hcons : replaceAux ('$' :: pl) new 0 (c :: (pre ++ '$' :: rest))
          = c :: replaceAux ('$' :: pl) new 0 (pre ++ '$' :: rest) := by
        simp [replaceAux, hb]
      simpa [hp] using hcons

theorem isAlpha_ne_dollar {c : Char} (h : c.isAlpha = true) : c ≠ '$' := by
  rintro rfl
  exact absurd h (by decide)

theorem isAlpha_ne_space {c : Char} (h : c.isAlpha = true) : c ≠ ' ' := by
  rintro rfl
  exact absurd h (by decide)

theorem placeholders_shape :
    ∀ p ∈ placeholders, p.head? = some '$' ∧ '$' ∉ p.tail := by
  decide

/-- One substitution step keeps a token that is prefix-incomparable with the placeholder. -/
theorem Replace_keeps_token (p new tok s : GoString) (hp : p ∈ placeholders)
    (htok : IsToken tok) (h1 : ¬ p <+: tok) (h2 : ¬ tok <+: p) (hs : tok <:+: s) :
    tok <:+: Replace s p new := by
  obtain ⟨tl, rfl, hal⟩ := htok
  have htl : '$' ∉ tl := fun h => isAlpha_ne_dollar (hal _ h) rfl
  obtain ⟨hhead, hpl⟩ := placeholders_shape p hp
  obtain ⟨pl, rfl⟩ : ∃ pl, p = '$' :: pl := by
    cases p with
    | nil => simp at hhead
    | cons a pl =>
      have ha : a = '$' := by simpa using hhead
      exact ⟨pl, by rw [ha]⟩
  have hpl : '$' ∉ pl := by simpa using hpl
  obtain ⟨pre, post, rfl⟩ := hs
  obtain ⟨pre', hreach⟩ := replaceAux_reach pl new (tl ++ post) hpl pre 0 (Nat.zero_le _)
  have hb : ('$' :: pl).isPrefixOf ('$' :: (tl ++ post)) = false := by
    cases hb : ('$' :: pl).isPrefixOf ('$' :: (tl ++ post)) with
    | false => rfl
    | true =>
      have hpre : ('$' :: pl) <+: ('$' :: tl) ++ post := List.isPrefixOf_iff_prefix.1 hb
      rcases List.prefix_or_prefix_of_prefix hpre (List.prefix_append _ post) with h | h
      · exact absurd h h1
      · exact absurd h h2
  have htokstep : replaceAux ('$' :: pl) new 0 ('$' :: (tl ++ post))
      = '$' :: (tl ++ replaceAux ('$' :: pl) new 0 post) := by
    have hcons : replaceAux ('$' :: pl) new 0 ('$' :: (tl ++ post))
        = '$' :: replaceAux ('$' :: pl) new 0 (tl ++ post) := by
      simp only [replaceAux, hb]
      simp
    rw [hcons, replaceAux_no_dollar pl new post tl htl]
  refine ⟨pre', replaceAux ('$' :: pl) new 0 post, ?_⟩
  have hR : Replace (pre ++ '$' :: tl ++ post) ('$' :: pl) new
      = replaceAux ('$' :: pl) new 0 (pre ++ '$' :: (tl ++ post)) := by
    simp [Replace]
  rw [hR, hreach, htokstep]
  simp

theorem placeholders_letters :
    ∀ p ∈ placeholders, ∀ c ∈ p.tail, c.isAlpha = true := by
  decide

/-- Where the token is not followed by a letter and does not begin with the placeholder, a
substitution step finds no match at the token and resumes right after it. -/
theorem Replace_at_token (p new pre tl post : GoString) (hp : p ∈ placeholders)
    (hal : ∀ ch ∈ tl, ch.isAlpha = true) (hbeg : ¬ p <+: '$' :: tl)
    (hmax : ∀ c ∈ post.head?, c.isAlpha = false) :
    ∃ pre', Replace (pre ++ '$' :: tl ++ post) p new
      = pre' ++ '$' :: tl ++ replaceAux p new 0 post := by
  have htl : '$' ∉ tl := fun h => isAlpha_ne_dollar (hal _ h) rfl
  obtain ⟨hhead, hpl⟩ := placeholders_shape p hp
  have hlet := placeholders_letters p hp
  obtain ⟨pl, rfl⟩ : ∃ pl, p = '$' :: pl := by
    cases p with
    | nil => simp at hhead
    | cons a pl =>
      have ha : a = '$' := by simpa using hhead
      exact ⟨pl, by rw [ha]⟩
  have hpl : '$' ∉ pl := by simpa using hpl
  have hlet : ∀ c ∈ pl, c.isAlpha = true := by simpa using hlet
  obtain ⟨pre', hreach⟩ := replaceAux_reach pl new (tl ++ post) hpl pre 0 (Nat.zero_le _)
  have hb : ('$' :: pl).isPrefixOf ('$' :: (tl ++ post)) = false := by
    cases hb : ('$' :: pl).isPrefixOf ('$' :: (tl ++ post)) with
    | false => rfl
    | true =>
      exfalso
      have hpre : ('$' :: pl) <+: '$' :: (tl ++ post) := List.isPrefixOf_iff_prefix.1 hb
      have hpl2 : pl <+: tl ++ post := (List.cons_prefix_cons.1 hpre).2
      by_cases hlen : pl.length ≤ tl.length
      · have h3 : pl <+: tl :=
          List.prefix_of_prefix_length_le hpl2 (List.prefix_append tl post) hlen
        exact hbeg (List.cons_prefix_cons.2 ⟨rfl, h3⟩)
      · have h3 : tl <+: pl :=
          List.prefix_of_prefix_length_le (List.prefix_append tl post) hpl2 (by omega)
        obtain ⟨r, rfl⟩ := h3
        have hr : r <+: post := (List.prefix_append_right_inj tl).1 hpl2
        cases r with
        | nil => simp at hlen
        | cons a r' =>
          obtain ⟨u, rfl⟩ := hr
          have h1 : a.isAlpha = true := hlet a (by simp)
          have h2 : a.isAlpha = false := hmax a (by simp)
          rw [h1] at h2
          exact absurd h2 (by decide)
  have htokstep : replaceAux ('$' :: pl) new 0 ('$' :: (tl ++ post))
      = '$' :: (tl ++ replaceAux ('$' :: pl) new 0 post) := by
    have hcons : replaceAux ('$' :: pl) new 0 ('$' :: (tl ++ post))
        = '$' :: replaceAux ('$' :: pl) new 0 (tl ++ post) := by
      simp only [replaceAux, hb]
      simp
    rw [hcons, replaceAux_no_dollar pl new post tl htl]
  refine ⟨pre', ?_⟩
  have hR : Replace (pre ++ '$' :: tl ++ post) ('$' :: pl) new
      = replaceAux ('$' :: pl) new 0 (pre ++ '$' :: (tl ++ post)) := by
    simp [Replace]
  rw [hR, hreach, htokstep]
  simp

/-- A substitution step does not change the first code point of a text that does not begin
with a dollar sign. -/
theorem replaceAux_head (p new post : GoString) (hp : p ∈ placeholders)
    (h : ∀ c ∈ post.head?, c ≠ '$') : (replaceAux p new 0 post).head? = post.head? := by
  obtain ⟨hhead, -⟩ := placeholders_shape p hp
  cases post with
  | nil => rfl
  | cons c t =>
    have hc : c ≠ '$' := h c (by simp)
    cases p with
    | nil => simp at hhead
    | cons a pl =>
      have ha : a = '$' := by simpa using hhead
      subst ha
      have hc2 : ¬ '$' = c := fun e => hc e.symm
      simp [replaceAux, hc2]

/-- One substitution step keeps a token that does not begin with the placeholder and stands
before a separator, and the token still stands before a separator afterwards. -/
theorem Replace_keeps_separated (p new tok s : GoString) (hp : p ∈ placeholders)
    (htok : IsToken tok) (hbeg : ¬ p <+: tok) (hs : FollowedBySeparator tok s) :
    FollowedBySeparator tok (Replace s p new) := by
  obtain ⟨tl, rfl, hal⟩ := htok
  obtain ⟨pre, post, rfl, hsep⟩ := hs
  obtain ⟨pre', hR⟩ := Replace_at_token p new pre tl post hp hal hbeg
    (fun c hc => (hsep c hc).1)
  refine ⟨pre', replaceAux p new 0 post, hR, ?_⟩
  intro c hc
  rw [replaceAux_head p new post hp (fun c hc => (hsep c hc).2)] at hc
  exact hsep c hc

/-- Replacing spaces keeps a token. -/
theorem hyphenate_keeps_token (tok s : GoString) (htok : IsToken tok) (hs : tok <:+: s) :
    tok <:+: hyphenate s := by
  obtain ⟨tl, rfl, hal⟩ := htok
  obtain ⟨pre, post, rfl⟩ := hs
  have hmap : List.map spaceToHyphen ('$' :: tl) = '$' :: tl := by
    have hid : ∀ c ∈ ('$' :: tl), spaceToHyphen c = c := by
      intro c hc
      rcases List.mem_cons.1 hc with rfl | hc
      · decide
      · simp [spaceToHyphen, isAlpha_ne_space (hal c hc)]
    calc List.map spaceToHyphen ('$' :: tl) = List.map id ('$' :: tl) :=
          List.map_congr_left hid
      _ = '$' :: tl := List.map_id _
  refine ⟨hyphenate pre, hyphenate post, ?_⟩
  simp only [hyphenate, List.map_append, hmap]

/-! ## Facts about `ToLower` -/

/-- On ASCII text `strings.ToLower` does not consult the case table. -/
theorem ToLower_ascii (tbl : Char → Char) (s : GoString) (h : ∀ c ∈ s, c.toNat ≤ 127) :
    ToLower tbl s = s.map asciiToLower := by
  apply List.map_congr_left
  intro c hc
  simp [unicodeToLower, h c hc]

theorem asciiToLower_not_upper_fin :
    ∀ n : Fin 128, (asciiToLower (Char.ofNat n.val)).isUpper = false := by
  decide

/-- Provided the case table yields no ASCII capital, `unicode.ToLower` yields none. -/
theorem unicodeToLower_not_upper (tbl : Char → Char)
    (htbl : ∀ c : Char, 127 < c.toNat → (tbl c).isUpper = false) (c : Char) :
    (unicodeToLower tbl c).isUpper = false := by
  unfold unicodeToLower
  split
  · rename_i h
    have hfin := asciiToLower_not_upper_fin ⟨c.toNat, by omega⟩
    simpa [Char.ofNat_toNat] using hfin
  · exact htbl c (by omega)

/-- A string with an ASCII capital does not occur in lower-cased text. -/
theorem capital_absent_of_lowered (tbl : Char → Char)
    (htbl : ∀ c : Char, 127 < c.toNat → (tbl c).isUpper = false) (p v : GoString)
    (hp : p.any Char.isUpper = true) : ¬ p <:+: ToLower tbl v := by
  intro hin
  obtain ⟨c, hc, hup⟩ := List.any_eq_true.1 hp
  have hmem : c ∈ ToLower tbl v := hin.subset hc
  obtain ⟨d, -, rfl⟩ := List.mem_map.1 hmem
  rw [unicodeToLower_not_upper tbl htbl d] at hup
  exact absurd hup (by decide)

theorem placeholders_capital :
    ∀ p ∈ placeholders, p = "$quota".toList ∨ p.any Char.isUpper = true := by
  decide

/-- In lower-cased text only `$quota` among the placeholders can occur. -/
theorem later_placeholders_absent (tbl : Char → Char)
    (htbl : ∀ c : Char, 127 < c.toNat → (tbl c).isUpper = false) (v : GoString) (k : Nat)
    (hq : ¬ "$quota".toList <:+: ToLower tbl v) :
    NoneOccurs (placeholders.drop k) (ToLower tbl v) := by
  intro p hp
  rcases placeholders_capital p (List.mem_of_mem_drop hp) with rfl | hcap
  · exact hq
  · exact capital_absent_of_lowered tbl htbl p v hcap

/-- Past `$quota` in the chain, no later placeholder can occur in lower-cased text. -/
theorem later_placeholders_absent_of_quota_done (tbl : Char → Char)
    (htbl : ∀ c : Char, 127 < c.toNat → (tbl c).isUpper = false) (v : GoString) (k : Nat)
    (hk : "$quota".toList ∉ placeholders.drop k) :
    NoneOccurs (placeholders.drop k) (ToLower tbl v) := by
  intro p hp
  rcases placeholders_capital p (List.mem_of_mem_drop hp) with rfl | hcap
  · exact absurd hp hk
  · exact capital_absent_of_lowered tbl htbl p v hcap

/-- The identity, taken as case table, yields no ASCII capital beyond the ASCII range. -/
theorem id_table_not_upper : ∀ c : Char, 127 < c.toNat → (id c).isUpper = false := by
  intro c hc
  have hc2 : 127 < c.val.toNat := hc
  simp only [id, Char.isUpper, Bool.and_eq_false_imp, decide_eq_true_eq, decide_eq_false_iff_not]
  intro _ hle
  have hle2 : c.val.toNat ≤ 90 := hle
  omega

/-! ## Key resolution -/

/-- C1, the claim as stated fails: with the pattern `$browserName` and a browser name that is
the text `$quota`, the later substitution of `$quota` rewrites the substituted value, so the key
is the quota `q` and not the lower-cased browser name `$quota`. -/
theorem getS3Key_value_rescanned :
    GetS3Key id "$browserName".toList quotaNamedRequest = "q".toList ∧
    hyphenate (ToLower id quotaNamedRequest.Session.Caps.Name) = "$quota".toList ∧
    GetS3Key id "$browserName".toList quotaNamedRequest
      ≠ hyphenate (ToLower id quotaNamedRequest.Session.Caps.Name) := by
  decide

/-- A pattern that is exactly one recognised placeholder resolves to the lower-cased table value
with spaces replaced by hyphens, provided that none of the placeholders substituted later in
the chain occurs in the lower-cased value. -/
theorem getS3Key_single_chain (tbl : Char → Char) (r : UploadRequest) :
    (NoneOccurs (placeholders.drop 1) (ToLower tbl (Base r.Filename)) →
      GetS3Key tbl "$fileName".toList r = hyphenate (ToLower tbl (Base r.Filename))) ∧
    (NoneOccurs (placeholders.drop 2) (ToLower tbl (Ext r.Filename)) →
      GetS3Key tbl "$fileExtension".toList r = hyphenate (ToLower tbl (Ext r.Filename))) ∧
    (NoneOccurs (placeholders.drop 3) (ToLower tbl r.Session.Caps.Name) →
      GetS3Key tbl "$browserName".toList r = hyphenate (ToLower tbl r.Session.Caps.Name)) ∧
    (NoneOccurs (placeholders.drop 4) (ToLower tbl r.Session.Caps.Version) →
      GetS3Key tbl "$browserVersion".toList r
        = hyphenate (ToLower tbl r.Session.Caps.Version)) ∧
    (NoneOccurs (placeholders.drop 5) (ToLower tbl r.Session.Caps.Platform) →
      GetS3Key tbl "$platformName".toList r
        = hyphenate (ToLower tbl r.Session.Caps.Platform)) ∧
    (NoneOccurs (placeholders.drop 6) (ToLower tbl r.Session.Quota) →
      GetS3Key tbl "$quota".toList r = hyphenate (ToLower tbl r.Session.Quota)) ∧
    (NoneOccurs (placeholders.drop 7) (ToLower tbl r.SessionId) →
      GetS3Key tbl "$sessionId".toList r = hyphenate (ToLower tbl r.SessionId)) ∧
    GetS3Key tbl "$fileType".toList r = hyphenate (ToLower tbl r.Type_) := by
  refine ⟨fun h => ?_, fun h => ?_, fun h => ?_, fun h => ?_, fun h => ?_, fun h => ?_,
    fun h => ?_, ?_⟩
  · have h2 := h "$fileExtension".toList (by decide)
    have h3 := h "$browserName".toList (by decide)
    have h4 := h "$browserVersion".toList (by decide)
    have h5 := h "$platformName".toList (by decide)
    have h6 := h "$quota".toList (by decide)
    have h7 := h "$sessionId".toList (by decide)
    have h8 := h "$fileType".toList (by decide)
    simp only [GetS3Key, Replace_space]
    rw [Replace_self _ _ (by decide),
      Replace_of_absent _ _ _ h2,
      Replace_of_absent _ _ _ h3,
      Replace_of_absent _ _ _ h4,
      Replace_of_absent _ _ _ h5,
      Replace_of_absent _ _ _ h6,
      Replace_of_absent _ _ _ h7,
      Replace_of_absent _ _ _ h8]
  · have h3 := h "$browserName".toList (by decide)
    have h4 := h "$browserVersion".toList (by decide)
    have h5 := h "$platformName".toList (by decide)
    have h6 := h "$quota".toList (by decide)
    have h7 := h "$sessionId".toList (by decide)
    have h8 := h "$fileType".toList (by decide)
    simp only [GetS3Key, Replace_space]
    rw [Replace_of_absent "$fileExtension".toList "$fileName".toList _ (by decide),
      Replace_self _ _ (by decide),
      Replace_of_absent _ _ _ h3,
      Replace_of_absent _ _ _ h4,
      Replace_of_absent _ _ _ h5,
      Replace_of_absent _ _ _ h6,
      Replace_of_absent _ _ _ h7,
      Replace_of_absent _ _ _ h8]
  · have h4 := h "$browserVersion".toList (by decide)
    have h5 := h "$platformName".toList (by decide)
    have h6 := h "$quota".toList (by decide)
    have h7 := h "$sessionId".toList (by decide)
    have h8 := h "$fileType".toList (by decide)
    simp only [GetS3Key, Replace_space]
    rw [Replace_of_absent "$browserName".toList "$fileName".toList _ (by decide),
      Replace_of_absent "$browserName".toList "$fileExtension".toList _ (by decide),
      Replace_self _ _ (by decide),
      Replace_of_absent _ _ _ h4,
      Replace_of_absent _ _ _ h5,
      Replace_of_absent _ _ _ h6,
      Replace_of_absent _ _ _ h7,
      Replace_of_absent _ _ _ h8]
  · have h5 := h "$platformName".toList (by decide)
    have h6 := h "$quota".toList (by decide)
    have h7 := h "$sessionId".toList (by decide)
    have h8 := h "$fileType".toList (by decide)
    simp only [GetS3Key, Replace_space]
    rw [Replace_of_absent "$browserVersion".toList "$fileName".toList _ (by decide),
      Replace_of_absent "$browserVersion".toList "$fileExtension".toList _ (by decide),
      Replace_of_absent "$browserVersion".toList "$browserName".toList _ (by decide),
      Replace_self _ _ (by decide),
      Replace_of_absent _ _ _ h5,
      Replace_of_absent _ _ _ h6,
      Replace_of_absent _ _ _ h7,
      Replace_of_absent _ _ _ h8]
  · have h6 := h "$quota".toList (by decide)
    have h7 := h "$sessionId".toList (by decide)
    have h8 := h "$fileType".toList (by decide)
    simp only [GetS3Key, Replace_space]
    rw [Replace_of_absent "$platformName".toList "$fileName".toList _ (by decide),
      Replace_of_absent "$platformName".toList "$fileExtension".toList _ (by decide),
      Replace_of_absent "$platformName".toList "$browserName".toList _ (by decide),
      Replace_of_absent "$platformName".toList "$browserVersion".toList _ (by decide),
      Replace_self _ _ (by decide),
      Replace_of_absent _ _ _ h6,
      Replace_of_absent _ _ _ h7,
      Replace_of_absent _ _ _ h8]
  · have h7 := h "$sessionId".toList (by decide)
    have h8 := h "$fileType".toList (by decide)
    simp only [GetS3Key, Replace_space]
    rw [Replace_of_absent "$quota".toList "$fileName".toList _ (by decide),
      Replace_of_absent "$quota".toList "$fileExtension".toList _ (by decide),
      Replace_of_absent "$quota".toList "$browserName".toList _ (by decide),
      Replace_of_absent "$quota".toList "$browserVersion".toList _ (by decide),
      Replace_of_absent "$quota".toList "$platformName".toList _ (by decide),
      Replace_self _ _ (by decide),
      Replace_of_absent _ _ _ h7,
      Replace_of_absent _ _ _ h8]
  · have h8 := h "$fileType".toList (by decide)
    simp only [GetS3Key, Replace_space]
    rw [Replace_of_absent "$sessionId".toList "$fileName".toList _ (by decide),
      Replace_of_absent "$sessionId".toList "$fileExtension".toList _ (by decide),
      Replace_of_absent "$sessionId".toList "$browserName".toList _ (by decide),
      Replace_of_absent "$sessionId".toList "$browserVersion".toList _ (by decide),
      Replace_of_absent "$sessionId".toList "$platformName".toList _ (by decide),
      Replace_of_absent "$sessionId".toList "$quota".toList _ (by decide),
      Replace_self _ _ (by decide),
      Replace_of_absent _ _ _ h8]
  · simp only [GetS3Key, Replace_space]
    rw [Replace_of_absent "$fileType".toList "$fileName".toList _ (by decide),
      Replace_of_absent "$fileType".toList "$fileExtension".toList _ (by decide),
      Replace_of_absent "$fileType".toList "$browserName".toList _ (by decide),
      Replace_of_absent "$fileType".toList "$browserVersion".toList _ (by decide),
      Replace_of_absent "$fileType".toList "$platformName".toList _ (by decide),
      Replace_of_absent "$fileType".toList "$quota".toList _ (by decide),
      Replace_of_absent "$fileType".toList "$sessionId".toList _ (by decide),
      Replace_self _ _ (by decide)]

/-- C1, amended: provided the case table of `unicode.ToLower` yields no ASCII capital letter, a
pattern that is exactly one recognised placeholder resolves to the lower-cased table value with
spaces replaced by hyphens: for `$quota`, `$sessionId` and `$fileType` whatever the value, and
for `$fileName`, `$fileExtension`, `$browserName`, `$browserVersion` and `$platformName`
whenever the lower-cased value does not contain the text `$quota`. -/
theorem getS3Key_single_placeholder (tbl : Char → Char)
    (htbl : ∀ c : Char, 127 < c.toNat → (tbl c).isUpper = false) (r : UploadRequest) :
    (¬ "$quota".toList <:+: ToLower tbl (Base r.Filename) →
      GetS3Key tbl "$fileName".toList r = hyphenate (ToLower tbl (Base r.Filename))) ∧
    (¬ "$quota".toList <:+: ToLower tbl (Ext r.Filename) →
      GetS3Key tbl "$fileExtension".toList r = hyphenate (ToLower tbl (Ext r.Filename))) ∧
    (¬ "$quota".toList <:+: ToLower tbl (r.Session.Caps.Name) →
      GetS3Key tbl "$browserName".toList r = hyphenate (ToLower tbl (r.Session.Caps.Name))) ∧
    (¬ "$quota".toList <:+: ToLower tbl (r.Session.Caps.Version) →
      GetS3Key tbl "$browserVersion".toList r = hyphenate (ToLower tbl (r.Session.Caps.Version))) ∧
    (¬ "$quota".toList <:+: ToLower tbl (r.Session.Caps.Platform) →
      GetS3Key tbl "$platformName".toList r = hyphenate (ToLower tbl (r.Session.Caps.Platform))) ∧
    GetS3Key tbl "$quota".toList r = hyphenate (ToLower tbl (r.Session.Quota)) ∧
    GetS3Key tbl "$sessionId".toList r = hyphenate (ToLower tbl (r.SessionId)) ∧
    GetS3Key tbl "$fileType".toList r = hyphenate (ToLower tbl (r.Type_)) := by
  have h := getS3Key_single_chain tbl r
  exact ⟨fun hq => h.1 (later_placeholders_absent tbl htbl _ 1 hq),
    fun hq => h.2.1 (later_placeholders_absent tbl htbl _ 2 hq),
    fun hq => h.2.2.1 (later_placeholders_absent tbl htbl _ 3 hq),
    fun hq => h.2.2.2.1 (later_placeholders_absent tbl htbl _ 4 hq),
    fun hq => h.2.2.2.2.1 (later_placeholders_absent tbl htbl _ 5 hq),
    h.2.2.2.2.2.1 (later_placeholders_absent_of_quota_done tbl htbl _ 6 (by decide)),
    h.2.2.2.2.2.2.1 (later_placeholders_absent_of_quota_done tbl htbl _ 7 (by decide)),
    h.2.2.2.2.2.2.2⟩

/-- Witness: the eight single-placeholder patterns resolved for `sampleRequest`, with the
identity as case table. -/
theorem getS3Key_single_placeholder_witness :
    (∀ c : Char, 127 < c.toNat → (id c).isUpper = false) ∧
    (¬ "$quota".toList <:+: ToLower id (Base sampleRequest.Filename) ∧
      GetS3Key id "$fileName".toList sampleRequest = "my-clip.webm".toList) ∧
    (¬ "$quota".toList <:+: ToLower id (Ext sampleRequest.Filename) ∧
      GetS3Key id "$fileExtension".toList sampleRequest = ".webm".toList) ∧
    (¬ "$quota".toList <:+: ToLower id (sampleRequest.Session.Caps.Name) ∧
      GetS3Key id "$browserName".toList sampleRequest = "chrome".toList) ∧
    (¬ "$quota".toList <:+: ToLower id (sampleRequest.Session.Caps.Version) ∧
      GetS3Key id "$browserVersion".toList sampleRequest = "91.0".toList) ∧
    (¬ "$quota".toList <:+: ToLower id (sampleRequest.Session.Caps.Platform) ∧
      GetS3Key id "$platformName".toList sampleRequest = "linux-x64".toList) ∧
    GetS3Key id "$quota".toList sampleRequest = "team-a".toList ∧
    GetS3Key id "$sessionId".toList sampleRequest = "abc-123".toList ∧
    GetS3Key id "$fileType".toList sampleRequest = "video".toList := by
  have h := getS3Key_single_placeholder id id_table_not_upper sampleRequest
  exact ⟨id_table_not_upper,
    ⟨by decide, (h.1 (by decide)).trans (by decide)⟩,
    ⟨by decide, (h.2.1 (by decide)).trans (by decide)⟩,
    ⟨by decide, (h.2.2.1 (by decide)).trans (by decide)⟩,
    ⟨by decide, (h.2.2.2.1 (by decide)).trans (by decide)⟩,
    ⟨by decide, (h.2.2.2.2.1 (by decide)).trans (by decide)⟩,
    (h.2.2.2.2.2.1).trans (by decide),
    (h.2.2.2.2.2.2.1).trans (by decide),
    (h.2.2.2.2.2.2.2).trans (by decide)⟩

/-- C2, the claim as stated fails: the unknown token `$fileNames` begins with the recognised
placeholder `$fileName`, whose substitution rewrites it; the token is absent from the key.
Likewise the unknown token `$quo` of the pattern `$quo$fileName` is completed by the file name
`ta` to `$quota`, and the unknown token `$file` of the pattern `$file$fileExtensionType` is
completed to `$fileType` once the empty extension is substituted; later substitutions replace
both. -/
theorem getS3Key_unknown_token_rewritten :
    (IsToken "$fileNames".toList ∧ "$fileNames".toList ∉ placeholders ∧
      GetS3Key id "$fileNames".toList quotaNamedRequest = "clip.webms".toList ∧
      ¬ "$fileNames".toList <:+: GetS3Key id "$fileNames".toList quotaNamedRequest) ∧
    (IsToken "$quo".toList ∧ "$quo".toList ∉ placeholders ∧
      GetS3Key id "$quo$fileName".toList taRequest = "q".toList ∧
      ¬ "$quo".toList <:+: GetS3Key id "$quo$fileName".toList taRequest) ∧
    (IsToken "$file".toList ∧ "$file".toList ∉ placeholders ∧
      GetS3Key id "$file$fileExtensionType".toList taRequest = "video".toList ∧
      ¬ "$file".toList <:+: GetS3Key id "$file$fileExtensionType".toList taRequest) := by
  refine ⟨⟨⟨"fileNames".toList, rfl, by decide⟩, by decide, by decide, by decide⟩,
    ⟨⟨"quo".toList, rfl, by decide⟩, by decide, by decide, by decide⟩,
    ⟨⟨"file".toList, rfl, by decide⟩, by decide, by decide, by decide⟩⟩

/-- C2, amended: every token of the pattern (a dollar sign followed by a maximal run of
letters) that does not begin with a recognised placeholder occurs verbatim in the key, except
possibly a token that is directly followed by another dollar sign and is a prefix of a
recognised placeholder other than `$fileName`. -/
theorem getS3Key_keeps_unknown_token (tbl : Char → Char) (keyPattern pre tok post : GoString)
    (input : UploadRequest) (hpat : keyPattern = pre ++ tok ++ post) (htok : IsToken tok)
    (hmax : ∀ c ∈ post.head?, c.isAlpha = false)
    (hbeg : ∀ p ∈ placeholders, ¬ p <+: tok)
    (hnext : post.head? = some '$' → ∀ p ∈ placeholders.drop 1, ¬ tok <+: p) :
    tok <:+: GetS3Key tbl keyPattern input := by
  subst hpat
  simp only [GetS3Key, Replace_space]
  apply hyphenate_keeps_token tok _ htok
  by_cases hd : post.head? = some '$'
  · have hcmp := hnext hd
    have step : ∀ p ∈ placeholders.drop 1, ∀ (new s : GoString),
        tok <:+: s → tok <:+: Replace s p new :=
      fun p hp new s hs => Replace_keeps_token p new tok s (List.mem_of_mem_drop hp) htok
        (hbeg p (List.mem_of_mem_drop hp)) (hcmp p hp) hs
    have first : ∀ new : GoString,
        tok <:+: Replace (pre ++ tok ++ post) "$fileName".toList new := by
      intro new
      obtain ⟨tl, rfl, hal⟩ := htok
      obtain ⟨pre', hR⟩ := Replace_at_token "$fileName".toList new pre tl post (by decide) hal
        (hbeg _ (by decide)) hmax
      exact ⟨pre', replaceAux "$fileName".toList new 0 post, hR.symm⟩
    apply step "$fileType".toList (by decide)
    apply step "$sessionId".toList (by decide)
    apply step "$quota".toList (by decide)
    apply step "$platformName".toList (by decide)
    apply step "$browserVersion".toList (by decide)
    apply step "$browserName".toList (by decide)
    apply step "$fileExtension".toList (by decide)
    exact first _
  · have hsep : FollowedBySeparator tok (pre ++ tok ++ post) := by
      refine ⟨pre, post, rfl, fun c hc => ⟨hmax c hc, ?_⟩⟩
      rintro rfl
      exact hd hc
    have step : ∀ p ∈ placeholders, ∀ (new s : GoString),
        FollowedBySeparator tok s → FollowedBySeparator tok (Replace s p new) :=
      fun p hp new s hs => Replace_keeps_separated p new tok s hp htok (hbeg p hp) hs
    have hfinal := step "$fileType".toList (by decide) (ToLower tbl input.Type_) _
      (step "$sessionId".toList (by decide) (ToLower tbl input.SessionId) _
      (step "$quota".toList (by decide) (ToLower tbl input.Session.Quota) _
      (step "$platformName".toList (by decide) (ToLower tbl input.Session.Caps.Platform) _
      (step "$browserVersion".toList (by decide) (ToLower tbl input.Session.Caps.Version) _
      (step "$browserName".toList (by decide) (ToLower tbl input.Session.Caps.Name) _
      (step "$fileExtension".toList (by decide) (ToLower tbl (Ext input.Filename)) _
      (step "$fileName".toList (by decide) (ToLower tbl (Base input.Filename)) _ hsep)))))))
    obtain ⟨pre', post', hEq, -⟩ := hfinal
    exact ⟨pre', post', hEq.symm⟩

/-- Witness: the token `$file`, a prefix of two placeholders, before a slash; and the token
`$build`, directly followed by the placeholder `$quota`. -/
theorem getS3Key_keeps_unknown_token_witness :
    (IsToken "$file".toList ∧
      "$file/$sessionId".toList = [] ++ "$file".toList ++ "/$sessionId".toList ∧
      (∀ c ∈ "/$sessionId".toList.head?, c.isAlpha = false) ∧
      (∀ p ∈ placeholders, ¬ p <+: "$file".toList) ∧
      GetS3Key id "$file/$sessionId".toList sampleRequest = "$file/abc-123".toList ∧
      "$file".toList <:+: GetS3Key id "$file/$sessionId".toList sampleRequest) ∧
    (IsToken "$build".toList ∧
      "x $build$quota".toList = "x ".toList ++ "$build".toList ++ "$quota".toList ∧
      (∀ c ∈ "$quota".toList.head?, c.isAlpha = false) ∧
      (∀ p ∈ placeholders, ¬ p <+: "$build".toList) ∧
      (∀ p ∈ placeholders.drop 1, ¬ "$build".toList <+: p) ∧
      GetS3Key id "x $build$quota".toList sampleRequest = "x-$buildteam-a".toList ∧
      "$build".toList <:+: GetS3Key id "x $build$quota".toList sampleRequest) :=
  ⟨⟨⟨"file".toList, rfl, by decide⟩, by decide, by decide, by decide, by decide,
      getS3Key_keeps_unknown_token id "$file/$sessionId".toList [] "$file".toList
        "/$sessionId".toList sampleRequest (by decide) ⟨"file".toList, rfl, by decide⟩
        (by decide) (by decide) (by decide)⟩,
    ⟨⟨"build".toList, rfl, by decide⟩, by decide, by decide, by decide, by decide, by decide,
      getS3Key_keeps_unknown_token id "x $build$quota".toList "x ".toList "$build".toList
        "$quota".toList sampleRequest (by decide) ⟨"build".toList, rfl, by decide⟩
        (by decide) (by decide) (by decide)⟩⟩

/-- C3: the key returned by `GetS3Key` contains no space, whatever the pattern and the
request. -/
theorem getS3Key_no_space (tbl : Char → Char) (keyPattern : GoString) (input : UploadRequest) :
    ' ' ∉ GetS3Key tbl keyPattern input := by
  simp only [GetS3Key, Replace_space]
  exact space_not_mem_hyphenate _

/-- C4: the two worked examples.  The pattern `$sessionId/$browserName-$browserVersion$fileExtension`
with session id `abc123`, browser `Chrome`, version `91` and file `clip.webm` resolves to
`abc123/chrome-91.webm`; the pattern `$fileName` with file `/tmp/Video_Run.MP4` resolves to
`video_run.mp4`.  The fields the examples do not mention are arbitrary. -/
theorem getS3Key_worked_examples (tbl : Char → Char)
    (platform quota type_ sessionId name version : GoString) :
    GetS3Key tbl "$sessionId/$browserName-$browserVersion$fileExtension".toList
      { Filename := "clip.webm".toList, SessionId := "abc123".toList,
        Session := { Caps := { Name := "Chrome".toList, Version := "91".toList,
                               Platform := platform },
                     Quota := quota },
        Type_ := type_ } = "abc123/chrome-91.webm".toList ∧
    GetS3Key tbl "$fileName".toList
      { Filename := "/tmp/Video_Run.MP4".toList, SessionId := sessionId,
        Session := { Caps := { Name := name, Version := version, Platform := platform },
                     Quota := quota },
        Type_ := type_ } = "video_run.mp4".toList := by
  have eBase1 : ToLower tbl (Base "clip.webm".toList) = "clip.webm".toList :=
    (ToLower_ascii tbl _ (by decide)).trans (by decide)
  have eExt1 : ToLower tbl (Ext "clip.webm".toList) = ".webm".toList :=
    (ToLower_ascii tbl _ (by decide)).trans (by decide)
  have eName : ToLower tbl "Chrome".toList = "chrome".toList :=
    (ToLower_ascii tbl _ (by decide)).trans (by decide)
  have eVersion : ToLower tbl "91".toList = "91".toList :=
    (ToLower_ascii tbl _ (by decide)).trans (by decide)
  have eId : ToLower tbl "abc123".toList = "abc123".toList :=
    (ToLower_ascii tbl _ (by decide)).trans (by decide)
  have eBase2 : ToLower tbl (Base "/tmp/Video_Run.MP4".toList) = "video_run.mp4".toList :=
    (ToLower_ascii tbl _ (by decide)).trans (by decide)
  constructor
  · simp only [GetS3Key, Replace_space, eBase1, eExt1, eName, eVersion, eId]
    rw [Replace_of_absent "$sessionId/$browserName-$browserVersion$fileExtension".toList
          "$fileName".toList _ (by decide),
      show Replace "$sessionId/$browserName-$browserVersion$fileExtension".toList
          "$fileExtension".toList ".webm".toList
          = "$sessionId/$browserName-$browserVersion.webm".toList from by decide,
      show Replace "$sessionId/$browserName-$browserVersion.webm".toList
          "$browserName".toList "chrome".toList
          = "$sessionId/chrome-$browserVersion.webm".toList from by decide,
      show Replace "$sessionId/chrome-$browserVersion.webm".toList
          "$browserVersion".toList "91".toList
          = "$sessionId/chrome-91.webm".toList from by decide,
      Replace_of_absent "$sessionId/chrome-91.webm".toList "$platformName".toList _
          (by decide),
      Replace_of_absent "$sessionId/chrome-91.webm".toList "$quota".toList _ (by decide),
      show Replace "$sessionId/chrome-91.webm".toList "$sessionId".toList "abc123".toList
          = "abc123/chrome-91.webm".toList from by decide,
      Replace_of_absent "abc123/chrome-91.webm".toList "$fileType".toList _ (by decide)]
    decide
  · simp only [GetS3Key, Replace_space, eBase2]
    rw [Replace_self _ _ (by decide),
      Replace_of_absent "video_run.mp4".toList "$fileExtension".toList _ (by decide),
      Replace_of_absent "video_run.mp4".toList "$browserName".toList _ (by decide),
      Replace_of_absent "video_run.mp4".toList "$browserVersion".toList _ (by decide),
      Replace_of_absent "video_run.mp4".toList "$platformName".toList _ (by decide),
      Replace_of_absent "video_run.mp4".toList "$quota".toList _ (by decide),
      Replace_of_absent "video_run.mp4".toList "$sessionId".toList _ (by decide),
      Replace_of_absent "video_run.mp4".toList "$fileType".toList _ (by decide)]
    decide

/-- C5: a pattern in which none of the eight recognised placeholders occurs is returned with
each space replaced by a hyphen and nothing else changed (same length, every other code point
kept at its position), and the empty pattern resolves to the empty string. -/
theorem getS3Key_without_placeholders (tbl : Char → Char) (keyPattern : GoString)
    (input : UploadRequest) :
    (NoneOccurs placeholders keyPattern →
      GetS3Key tbl keyPattern input = keyPattern.map (fun c => if c = ' ' then '-' else c) ∧
      (GetS3Key tbl keyPattern input).length = keyPattern.length ∧
      ∀ (i : Nat) (c : Char), keyPattern[i]? = some c → c ≠ ' ' →
        (GetS3Key tbl keyPattern input)[i]? = some c) ∧
    GetS3Key tbl [] input = [] := by
  have key : ∀ pat : GoString, NoneOccurs placeholders pat →
      GetS3Key tbl pat input = hyphenate pat := by
    intro pat h
    have h1 := h "$fileName".toList (by decide)
    have h2 := h "$fileExtension".toList (by decide)
    have h3 := h "$browserName".toList (by decide)
    have h4 := h "$browserVersion".toList (by decide)
    have h5 := h "$platformName".toList (by decide)
    have h6 := h "$quota".toList (by decide)
    have h7 := h "$sessionId".toList (by decide)
    have h8 := h "$fileType".toList (by decide)
    simp only [GetS3Key, Replace_space]
    rw [Replace_of_absent _ _ _ h1, Replace_of_absent _ _ _ h2,
      Replace_of_absent _ _ _ h3, Replace_of_absent _ _ _ h4,
      Replace_of_absent _ _ _ h5, Replace_of_absent _ _ _ h6,
      Replace_of_absent _ _ _ h7, Replace_of_absent _ _ _ h8]
  refine ⟨fun h => ?_, ?_⟩
  · have hk := key keyPattern h
    refine ⟨hk, ?_, ?_⟩
    · rw [hk]
      simp [hyphenate]
    · intro i c hi hc
      rw [hk]
      simp [hyphenate, spaceToHyphen, hi, hc]
  · exact key [] (by decide)

/-- Witness: a pattern with spaces, capitals and an
unknown token. -/
theorem getS3Key_without_placeholders_witness :
    NoneOccurs placeholders "Videos 2024/$foo Bar".toList ∧
    GetS3Key id "Videos 2024/$foo Bar".toList sampleRequest = "Videos-2024/$foo-Bar".toList ∧
    GetS3Key id [] sampleRequest = [] :=
  ⟨by decide,
    ((getS3Key_without_placeholders id "Videos 2024/$foo Bar".toList sampleRequest).1
      (by decide)).1.trans (by decide),
    (getS3Key_without_placeholders id "Videos 2024/$foo Bar".toList sampleRequest).2⟩

/-! ## Upload -/

/-- C6, evaluated where the removal fails: the transfer succeeds, `os.Remove` fails with
`operation not permitted`, and the error returned by `Upload` names the path but ends in
`<nil>`: the cause of the failed removal is not part of the message. -/
theorem upload_remove_failure_message :
    (osRemove { fs := lockedFs, trace := [] } clipRequest.Filename).1
      = some "remove /tmp/clip.webm: operation not permitted".toList ∧
    (Upload id readyUploader clipRequest { fs := lockedFs, trace := [] }).1
      = some "failed to remove uploaded file /tmp/clip.webm: <nil>".toList ∧
    ¬ "operation not permitted".toList
        <:+: "failed to remove uploaded file /tmp/clip.webm: <nil>".toList := by
  decide

/-- C7: an uploader whose manager is unset and whose endpoint is empty is left unchanged by
`Init`, and its `Upload` returns the not-initialized error and the world it was given: the file
system and the log of effects are those before the call. -/
theorem upload_disabled (tbl : Char → Char) (newSession : AwsConfig → Except GoString S3Manager)
    (s3 : S3Uploader) (input : UploadRequest) (w : World)
    (hm : s3.manager = none) (he : s3.Endpoint = []) :
    Init newSession s3 = some s3 ∧
    Upload tbl s3 input w = (some "S3 uploader is not initialized".toList, w) ∧
    (Upload tbl s3 input w).2.fs = w.fs ∧
    (Upload tbl s3 input w).2.trace = w.trace := by
  have hU : Upload tbl s3 input w = (some "S3 uploader is not initialized".toList, w) := by
    simp [Upload, hm]
  refine ⟨by simp [Init, he], hU, ?_, ?_⟩ <;> rw [hU]

/-- Witness: the uploader made by `init` with an empty endpoint flag. -/
theorem upload_disabled_witness :
    (init [] "us-east-1".toList [] [] "videos".toList "$fileName".toList false false).manager
      = none ∧
    (init [] "us-east-1".toList [] [] "videos".toList "$fileName".toList false false).Endpoint
      = [] ∧
    (Upload id (init [] "us-east-1".toList [] [] "videos".toList "$fileName".toList false false)
      clipRequest { fs := plainFs, trace := [] }).1
      = some "S3 uploader is not initialized".toList ∧
    (Upload id (init [] "us-east-1".toList [] [] "videos".toList "$fileName".toList false false)
      clipRequest { fs := plainFs, trace := [] }).2.trace = [] :=
  ⟨rfl, rfl,
    congrArg Prod.fst (upload_disabled id (fun _ => .error [])
      (init [] "us-east-1".toList [] [] "videos".toList "$fileName".toList false false)
      clipRequest { fs := plainFs, trace := [] } rfl rfl).2.1,
    (upload_disabled id (fun _ => .error [])
      (init [] "us-east-1".toList [] [] "videos".toList "$fileName".toList false false)
      clipRequest { fs := plainFs, trace := [] } rfl rfl).2.2.2⟩

/-- C8, the claim as stated fails: the uploader is initialised, `KeepFiles` is false and the
transfer succeeds, but the removal fails, and the local file still exists after `Upload`. -/
theorem upload_remove_failure_keeps_file :
    readyUploader.manager.isSome = true ∧ readyUploader.KeepFiles = false ∧
    Event.put (mkUploadInput readyUploader "abc123/clip.webm".toList
        (some { name := "/tmp/clip.webm".toList, data := [26, 69, 223, 163] }))
      ∈ (Upload id readyUploader clipRequest { fs := lockedFs, trace := [] }).2.trace ∧
    okManager.Upload (mkUploadInput readyUploader "abc123/clip.webm".toList
        (some { name := "/tmp/clip.webm".toList, data := [26, 69, 223, 163] })) = none ∧
    (Upload id readyUploader clipRequest { fs := lockedFs, trace := [] }).2.fs
        clipRequest.Filename
      = some { data := [26, 69, 223, 163], readable := true, removable := false } := by
  decide

/-- C8, amended: for an initialised uploader whose local file opens and whose transfer
succeeds: with `KeepFiles` set, `Upload` returns nil and the whole file system, the file and its
content included, is as before; with `KeepFiles` unset and a removal that succeeds, `Upload`
returns nil and the file no longer exists; with `KeepFiles` unset and a removal that fails,
`Upload` returns an error and the file is still there. -/
theorem upload_success_cleanup (tbl : Char → Char) (s3 : S3Uploader) (m : S3Manager)
    (input : UploadRequest) (w : World) (f : FileInfo)
    (hm : s3.manager = some m) (hf : w.fs input.Filename = some f) (hr : f.readable = true)
    (ht : m.Upload (mkUploadInput s3 (GetS3Key tbl s3.KeyPattern input)
            (some { name := input.Filename, data := f.data })) = none) :
    (s3.KeepFiles = true →
      (Upload tbl s3 input w).1 = none ∧
      (Upload tbl s3 input w).2.fs = w.fs ∧
      (Upload tbl s3 input w).2.fs input.Filename = some f) ∧
    (s3.KeepFiles = false → f.removable = true →
      (Upload tbl s3 input w).1 = none ∧
      (Upload tbl s3 input w).2.fs input.Filename = none) ∧
    (s3.KeepFiles = false → f.removable = false →
      (Upload tbl s3 input w).1 ≠ none ∧
      (Upload tbl s3 input w).2.fs input.Filename = some f) := by
  refine ⟨fun hk => ?_, fun hk hrm => ?_, fun hk hrm => ?_⟩
  · simp [Upload, hm, osOpen, hf, hr, managerUpload, ht, hk, fileClose]
  · simp [Upload, hm, osOpen, hf, hr, managerUpload, ht, hk, osRemove, hrm, fileClose]
  · simp [Upload, hm, osOpen, hf, hr, managerUpload, ht, hk, osRemove, hrm, fileClose]

/-- Witness: the recording is uploaded once by an uploader that
removes files and once by one that keeps them. -/
theorem upload_success_cleanup_witness :
    ((Upload id readyUploader clipRequest { fs := plainFs, trace := [] }).1 = none ∧
      (Upload id readyUploader clipRequest { fs := plainFs, trace := [] }).2.fs
        clipRequest.Filename = none) ∧
    ((Upload id keepingUploader clipRequest { fs := plainFs, trace := [] }).1 = none ∧
      (Upload id keepingUploader clipRequest { fs := plainFs, trace := [] }).2.fs
        clipRequest.Filename
        = some { data := [26, 69, 223, 163], readable := true, removable := true }) :=
  ⟨(upload_success_cleanup id readyUploader okManager clipRequest
      { fs := plainFs, trace := [] }
      { data := [26, 69, 223, 163], readable := true, removable := true }
      rfl (by decide) rfl rfl).2.1 rfl rfl,
    ((upload_success_cleanup id keepingUploader okManager clipRequest
      { fs := plainFs, trace := [] }
      { data := [26, 69, 223, 163], readable := true, removable := true }
      rfl (by decide) rfl rfl).1 rfl).1,
    ((upload_success_cleanup id keepingUploader okManager clipRequest
      { fs := plainFs, trace := [] }
      { data := [26, 69, 223, 163], readable := true, removable := true }
      rfl (by decide) rfl rfl).1 rfl).2.2⟩

/-- C9: for an initialised uploader whose local file opens and whose transfer fails with the
error `e`, whatever `KeepFiles` is, `Upload` returns the error
`failed to S3 upload <filename> as <key>: <e>`, which contains the file name and the resolved
key; the file system is unchanged, and the effects are the open, the transfer attempt and the
close, without any removal. -/
theorem upload_transfer_failure (tbl : Char → Char) (s3 : S3Uploader) (m : S3Manager)
    (input : UploadRequest) (w : World) (f : FileInfo) (e : GoString)
    (hm : s3.manager = some m) (hf : w.fs input.Filename = some f) (hr : f.readable = true)
    (ht : m.Upload (mkUploadInput s3 (GetS3Key tbl s3.KeyPattern input)
            (some { name := input.Filename, data := f.data })) = some e) :
    (Upload tbl s3 input w).1
      = some ("failed to S3 upload ".toList ++ input.Filename ++ " as ".toList ++
          GetS3Key tbl s3.KeyPattern input ++ ": ".toList ++ e) ∧
    (∃ msg, (Upload tbl s3 input w).1 = some msg ∧ input.Filename <:+: msg ∧
      GetS3Key tbl s3.KeyPattern input <:+: msg) ∧
    (Upload tbl s3 input w).2.fs = w.fs ∧
    (Upload tbl s3 input w).2.fs input.Filename = some f ∧
    (Upload tbl s3 input w).2.trace
      = w.trace ++ [Event.open input.Filename,
          Event.put (mkUploadInput s3 (GetS3Key tbl s3.KeyPattern input)
            (some { name := input.Filename, data := f.data })),
          Event.close input.Filename] ∧
    Event.remove input.Filename ∉ (Upload tbl s3 input w).2.trace.drop w.trace.length := by
  have hU : Upload tbl s3 input w
      = (some ("failed to S3 upload ".toList ++ input.Filename ++ " as ".toList ++
          GetS3Key tbl s3.KeyPattern input ++ ": ".toList ++ e),
        { fs := w.fs,
          trace := w.trace ++ [Event.open input.Filename] ++
            [Event.put (mkUploadInput s3 (GetS3Key tbl s3.KeyPattern input)
              (some { name := input.Filename, data := f.data }))] ++
            [Event.close input.Filename] }) := by
    simp [Upload, hm, osOpen, hf, hr, managerUpload, ht, fileClose, formatV]
  rw [hU]
  refine ⟨rfl, ⟨_, rfl, ?_, ?_⟩, rfl, hf, by simp, by simp⟩
  · exact ⟨"failed to S3 upload ".toList,
      " as ".toList ++ GetS3Key tbl s3.KeyPattern input ++ ": ".toList ++ e, by simp⟩
  · exact ⟨"failed to S3 upload ".toList ++ input.Filename ++ " as ".toList,
      ": ".toList ++ e, by simp⟩

/-- Witness: the backend rejects the recording. -/
theorem upload_transfer_failure_witness :
    rejectedUploader.manager.isSome = true ∧
    plainFs clipRequest.Filename
      = some { data := [26, 69, 223, 163], readable := true, removable := true } ∧
    (Upload id rejectedUploader clipRequest { fs := plainFs, trace := [] }).1
      = some "failed to S3 upload /tmp/clip.webm as abc123/clip.webm: RequestTimeout".toList ∧
    (Upload id rejectedUploader clipRequest { fs := plainFs, trace := [] }).2.fs
        clipRequest.Filename
      = some { data := [26, 69, 223, 163], readable := true, removable := true } :=
  ⟨rfl, by decide,
    (upload_transfer_failure id rejectedUploader failingManager clipRequest
      { fs := plainFs, trace := [] }
      { data := [26, 69, 223, 163], readable := true, removable := true }
      "RequestTimeout".toList rfl (by decide) rfl rfl).1.trans (by decide),
    (upload_transfer_failure id rejectedUploader failingManager clipRequest
      { fs := plainFs, trace := [] }
      { data := [26, 69, 223, 163], readable := true, removable := true }
      "RequestTimeout".toList rfl (by decide) rfl rfl).2.2.2.1⟩

/-- C10: for an initialised uploader, when `os.Open` fails, `Upload` returns the error
`failed to open file <filename>: <cause>`, which contains the file name; the file system is
unchanged and the only effect is the attempt to open: no transfer and no removal. -/
theorem upload_open_failure (tbl : Char → Char) (s3 : S3Uploader) (m : S3Manager)
    (input : UploadRequest) (w : World)
    (hm : s3.manager = some m) (ho : (osOpen w input.Filename).2.1 ≠ none) :
    (Upload tbl s3 input w).1
      = some ("failed to open file ".toList ++ input.Filename ++ ": ".toList ++
          formatV (osOpen w input.Filename).2.1) ∧
    (∃ msg, (Upload tbl s3 input w).1 = some msg ∧ input.Filename <:+: msg) ∧
    (Upload tbl s3 input w).2.fs = w.fs ∧
    (Upload tbl s3 input w).2.trace = w.trace ++ [Event.open input.Filename] ∧
    (∀ uploadInput, Event.put uploadInput ∉ (Upload tbl s3 input w).2.trace.drop w.trace.length) ∧
    (∀ name, Event.remove name ∉ (Upload tbl s3 input w).2.trace.drop w.trace.length) := by
  have hU : Upload tbl s3 input w
      = (some ("failed to open file ".toList ++ input.Filename ++ ": ".toList ++
          formatV (osOpen w input.Filename).2.1),
        { fs := w.fs, trace := w.trace ++ [Event.open input.Filename] }) := by
    cases hfs : w.fs input.Filename with
    | none => simp [Upload, hm, osOpen, hfs, fileClose]
    | some f =>
      cases hr : f.readable with
      | true => simp [osOpen, hfs, hr] at ho
      | false => simp [Upload, hm, osOpen, hfs, hr, fileClose]
  rw [hU]
  refine ⟨rfl, ⟨_, rfl, ?_⟩, rfl, rfl, by simp, by simp⟩
  exact ⟨"failed to open file ".toList,
    ": ".toList ++ formatV (osOpen w input.Filename).2.1, by simp⟩

/-- Witness: the recording does not exist. -/
theorem upload_open_failure_witness :
    (osOpen { fs := emptyFs, trace := [] } clipRequest.Filename).2.1 ≠ none ∧
    (Upload id readyUploader clipRequest { fs := emptyFs, trace := [] }).1
      = some "failed to open file /tmp/clip.webm: open /tmp/clip.webm: no such file or directory".toList ∧
    (Upload id readyUploader clipRequest { fs := emptyFs, trace := [] }).2.trace
      = [Event.open "/tmp/clip.webm".toList] :=
  ⟨by decide,
    (upload_open_failure id readyUploader okManager clipRequest { fs := emptyFs, trace := [] }
      rfl (by decide)).1.trans (by decide),
    (upload_open_failure id readyUploader okManager clipRequest { fs := emptyFs, trace := [] }
      rfl (by decide)).2.2.2.1⟩

end S3
